import Mathlib

/-!
Shallow embedding of the CultivateFood pipeline (PythonCode3.py, with the
county filters of PythonCode.py and PythonCode2.py).

Modelling conventions:
* a Python string is a `List Char`;
* a pandas missing cell (NaN / None) is `Option.none`;
* pandas float cells that may carry IEEE specials are the `PFloat` type
  (`na` = NaN, `pinf`/`ninf` = the infinities, `num q` = a finite value,
  with exact rational arithmetic standing in for binary floats);
* a fallible Python function returns `Option` / `Except`.
-/

namespace CultivateFood

/-- Python string literal as a character list. -/
def strL (s : String) : List Char := s.data

/-- The ASCII whitespace characters removed by Python str.strip(). -/
def isPySpace (c : Char) : Bool :=
  c == ' ' || c == '\t' || c == '\n' || c == '\r' || c == '\x0b' || c == '\x0c'

/-- Decimal digit test, the regex class \d on ASCII input. -/
def isDigitC (c : Char) : Bool := '0' ≤ c && c ≤ '9'

/-- Drop from the end of the list every element satisfying p. -/
def rtrim {α : Type} (p : α → Bool) (l : List α) : List α :=
  (l.reverse.dropWhile p).reverse

/-- Python s.strip(): drop leading and trailing whitespace. -/
def pyStrip (l : List Char) : List Char :=
  rtrim isPySpace (l.dropWhile isPySpace)

/-- Python s.rstrip(c): drop trailing copies of the character c. -/
def rstripC (c : Char) (l : List Char) : List Char :=
  rtrim (fun d => d == c) l

/-- re.fullmatch(r"\d+(\.\d+)?", s) used by norm_tract_name
    (PythonCode3.py line 44): one or more digits, optionally followed by a
    point and one or more digits. -/
def matchesNum (l : List Char) : Bool :=
  !(l.takeWhile isDigitC).isEmpty &&
    ((l.dropWhile isDigitC).isEmpty ||
      ((l.dropWhile isDigitC).head? == some '.' &&
        !(l.dropWhile isDigitC).tail.isEmpty &&
        (l.dropWhile isDigitC).tail.all isDigitC))

/-- The conditional rstrip of norm_tract_name (PythonCode3.py line 46):
    s.rstrip('0').rstrip('.') if '.' in s else s. -/
def stripDotZeros (s : List Char) : List Char :=
  if s.any (fun c => c == '.') then rstripC '.' (rstripC '0' s) else s

/-- norm_tract_name from PythonCode3.py lines 38-49: strip whitespace; when
    the result matches the decimal-number pattern, rstrip zeros then the
    point if a point is present, replacing an empty result by "0". -/
def norm_tract_name (l : List Char) : List Char :=
  if matchesNum (pyStrip l) then
    if (stripDotZeros (pyStrip l)).isEmpty then ['0'] else stripDotZeros (pyStrip l)
  else pyStrip l

/-- np.where(pn <= 1.5, pn * 100, pn) from PythonCode3.py line 207, on a
    finite poverty number. -/
def povertyPct (v : ℚ) : ℚ := if v ≤ 3 / 2 then v * 100 else v

/-- The characters kept by re.sub(r"[^\d\.\-]", "", s) in parse_number
    (PythonCode3.py line 32): digits, points, and minus signs at any
    position. -/
def keepNumChar (c : Char) : Bool := isDigitC c || c == '.' || c == '-'

/-- Value of a digit string read in base 10. -/
def digitsValN (l : List Char) : ℕ := l.foldl (fun acc c => acc * 10 + (c.toNat - 48)) 0

/-- Value of a digit string read in base 10, as a rational. -/
def digitsVal (l : List Char) : ℚ := (digitsValN l : ℚ)

/-- Syntactic half of Python float() on an unsigned string over the
    alphabet of digits, '.' and '-': accept digits with at most one point
    and at least one digit; reject any stray minus sign. Returns the
    integer-part and fraction-part digit strings. -/
def splitNum (l : List Char) : Option (List Char × List Char) :=
  let ip := l.takeWhile isDigitC
  let rest := l.dropWhile isDigitC
  if rest.isEmpty then
    if ip.isEmpty then none else some (ip, [])
  else if rest.head? == some '.' then
    if rest.tail.all isDigitC && !(ip.isEmpty && rest.tail.isEmpty) then
      some (ip, rest.tail)
    else none
  else none

/-- Syntactic half of Python float() on a string over digits, '.' and '-'
    (the only characters surviving parse_number's substitution): an
    optional leading minus, then an unsigned number. -/
def splitFloat (l : List Char) : Option (Bool × List Char × List Char) :=
  if l.head? == some '-' then (splitNum l.tail).map (fun p => (true, p))
  else (splitNum l).map (fun p => (false, p))

/-- Numeric value of a parsed sign/integer-digits/fraction-digits triple. -/
def ratOfSplit (s : Bool × List Char × List Char) : ℚ :=
  (if s.1 then -1 else 1) * (digitsVal s.2.1 + digitsVal s.2.2 / (10 : ℚ) ^ s.2.2.length)

/-- Python float() on a string over digits, '.' and '-'. -/
def floatOfChars (l : List Char) : Option ℚ := (splitFloat l).map ratOfSplit

/-- parse_number from PythonCode3.py lines 28-36: None when the input is
    null, otherwise delete every character outside [0-9.-] and parse the
    residue with float(), returning None when that raises ValueError. -/
def parse_number (x : Option (List Char)) : Option ℚ :=
  match x with
  | none => none
  | some s => floatOfChars (s.filter keepNumChar)

/-- Modelled from the spec (section 4.2 wording, for comparison with
    parse_number): strip every character that is not a digit, a decimal
    point, or a LEADING minus sign. -/
def stripSpecDescribed (l : List Char) : List Char :=
  match l with
  | '-' :: rest => '-' :: rest.filter (fun c => isDigitC c || c == '.')
  | _ => l.filter (fun c => isDigitC c || c == '.')

/-- The coercion the spec describes: the spec's strip followed by the same
    float() parse. -/
def parseNumberSpecDescribed (x : Option (List Char)) : Option ℚ :=
  match x with
  | none => none
  | some s => floatOfChars (stripSpecDescribed s)

/-- Decimal digits of a natural number, most significant first; the fuel
    argument bounds the recursion depth. -/
def natDigitsAux : Nat → Nat → List Char
  | 0, _ => []
  | fuel + 1, n =>
      if n = 0 then [] else natDigitsAux fuel (n / 10) ++ [Char.ofNat (48 + n % 10)]

/-- Python str(n) for a nonnegative integer: its plain decimal form, with
    no zero padding. -/
def natToStr (n : Nat) : List Char := if n = 0 then ['0'] else natDigitsAux n n

/-- A raw COUNTYFP cell as it may arrive from a source file: either
    string-typed or integer-typed. -/
inductive PyVal where
  | strV (s : List Char)
  | intV (n : Nat)
deriving DecidableEq

/-- pandas .astype(str) on a COUNTYFP cell (PythonCode3.py line 70,
    PythonCode.py line 33, PythonCode2.py line 44): Python str() of the
    cell, which is the identity on strings and the unpadded decimal form
    on integers. -/
def astypeStr : PyVal → List Char
  | .strV s => s
  | .intV n => natToStr n

/-- county_fips = ["099", "141", "039"] (PythonCode3.py line 72; the same
    set appears as keep_fips in PythonCode.py and PythonCode2.py). -/
def county_fips : List (List Char) := [strL "099", strL "141", strL "039"]

/-- The county filter tracts["COUNTYFP"].isin(county_fips) applied to one
    cell after .astype(str). -/
def countySelect (v : PyVal) : Bool := county_fips.contains (astypeStr v)

/-- A pandas float cell that may carry an IEEE special value: na is NaN,
    pinf and ninf are the infinities, num q a finite value. -/
inductive PFloat where
  | na
  | pinf
  | ninf
  | num (q : ℚ)
deriving DecidableEq

/-- Elementwise pandas division of two float columns whose cells are NaN or
    finite, as in df["Under_18"] / total: NaN propagates, x / 0 follows
    IEEE (NaN for 0 / 0, a signed infinity otherwise), and the finite case
    is exact division. -/
def seriesDiv (a b : Option ℚ) : PFloat :=
  match a, b with
  | none, _ => .na
  | some _, none => .na
  | some x, some y =>
      if y = 0 then
        if x = 0 then .na else if 0 < x then .pinf else .ninf
      else .num (x / y)

/-- Elementwise multiplication by the scalar 100. -/
def pMul100 : PFloat → PFloat
  | .na => .na
  | .pinf => .pinf
  | .ninf => .ninf
  | .num q => .num (q * 100)

/-- One cell of df["Under_18Per"] = (df["Under_18"] / total) * 100 from
    add_age_metrics (PythonCode3.py lines 161-162); df["Over_65Per"] is the
    same formula applied to the over-65 sum. -/
def agePercent (s t : Option ℚ) : PFloat := pMul100 (seriesDiv s t)

/-- u18_cols from add_age_metrics (PythonCode3.py lines 148-151). -/
def u18_cols : List String :=
  ["Male..Under.5.years.x", "Male..5.to.9.years", "Male..10.to.14.years",
   "Male..15.to.17.years", "Female..Under.5.years.x", "Female..5.to.9.years",
   "Female..10.to.14.years", "Female..15.to.17.years"]

/-- o65_cols from add_age_metrics (PythonCode3.py lines 152-157). -/
def o65_cols : List String :=
  ["Male..65.and.66.years", "Male..67.to.69.years", "Male..70.to.74.years",
   "Male..75.to.79.years", "Male..80.to.84.years", "Male..85.years.and.over",
   "Female..65.and.66.years", "Female..67.to.69.years", "Female..70.to.74.years",
   "Female..75.to.79.years", "Female..80.to.84.years", "Female..85.years.and.over"]

/-- safe_sum from PythonCode3.py lines 140-144, seen from one row:
    present is df.columns; row maps a column name to the row's cell after
    pd.to_numeric(..., errors="coerce") (none = NaN).  When no configured
    column is present the result is the NaN series; otherwise the row sum
    skips NaN cells (the pandas default), so an all-NaN row sums to 0. -/
def safe_sum (present : List String) (row : String → Option ℚ)
    (cols : List String) : Option ℚ :=
  if (cols.filter (fun c => present.contains c)).isEmpty then none
  else some ((cols.filter (fun c => present.contains c)).foldl
    (fun acc c => acc + ((row c).getD 0)) 0)

/-- total = pd.to_numeric(df.get("Total"), errors="coerce") from
    add_age_metrics (PythonCode3.py line 160): the Total cell when the
    column exists, NaN otherwise. -/
def totalOf (present : List String) (row : String → Option ℚ) : Option ℚ :=
  if present.contains "Total" then row "Total" else none

/-- The Under_18Per cell produced by add_age_metrics for one row. -/
def under18PerOf (present : List String) (row : String → Option ℚ) : PFloat :=
  agePercent (safe_sum present row u18_cols) (totalOf present row)

/-- The Over_65Per cell produced by add_age_metrics for one row. -/
def over65PerOf (present : List String) (row : String → Option ℚ) : PFloat :=
  agePercent (safe_sum present row o65_cols) (totalOf present row)

/-- One row of the reference polygon table: its join key, its geometry
    (opaque, any type), and the attribute cells accumulated by merges. -/
structure RefRow (γ : Type) where
  name : String
  geom : γ
  attrs : List (Option ℚ)
deriving DecidableEq

/-- One attribute table handed to merge_chain: whether it has a NAME
    column, how many attribute fields it carries, and its rows as
    key-fields pairs. -/
structure AttrTable where
  hasName : Bool
  width : Nat
  rows : List (String × List ℚ)
deriving DecidableEq

/-- One pandas left merge out.merge(d, on="NAME", how="left")
    (PythonCode3.py line 124): each left row pairs with every matching
    right row in right-table order, or survives alone with NaN fields when
    nothing matches. -/
def mergeLeft {γ : Type} (out : List (RefRow γ)) (t : AttrTable) : List (RefRow γ) :=
  (out.map (fun r =>
    match t.rows.filter (fun p => p.1 == r.name) with
    | [] => [{ r with attrs := r.attrs ++ List.replicate t.width none }]
    | ms => ms.map (fun p => { r with attrs := r.attrs ++ p.2.map some }))).flatten

/-- The loop body of merge_chain (PythonCode3.py lines 122-126): fold the
    attribute tables into the accumulating frame, raising ValueError when a
    table lacks the NAME column. -/
def mergeChainAux {γ : Type} :
    List (RefRow γ) → List AttrTable → Except String (List (RefRow γ))
  | out, [] => .ok out
  | out, t :: ts =>
      if t.hasName then mergeChainAux (mergeLeft out t) ts
      else .error "All attribute frames must include NAME for this merge path."

/-- merge_chain from PythonCode3.py lines 120-127: copy the reference
    frame, then left-merge each attribute table onto it in order. -/
def merge_chain {γ : Type} (ref : List (RefRow γ)) (ts : List AttrTable) :
    Except String (List (RefRow γ)) :=
  mergeChainAux ref ts

/-- The per-key attribute fields the spec describes for one table: the
    matching row's fields, or one "no value" per field when the key is
    absent. -/
def specLookup (t : AttrTable) (k : String) : List (Option ℚ) :=
  match t.rows.filter (fun p => p.1 == k) with
  | [] => List.replicate t.width none
  | p :: _ => p.2.map some

/-- The caller-visible environment around a merge_chain call: the variable
    holding the caller's reference frame. -/
structure PyEnv (γ : Type) where
  sf_gdf : List (RefRow γ)

/-- merge_chain as executed against the caller's environment:
    out = sf_gdf.copy() duplicates the frame into a fresh value, every
    .merge builds a new frame from its arguments, and nothing assigns into
    the caller's variable, so the environment is returned unchanged beside
    the merge result. -/
def mergeChainCall {γ : Type} (env : PyEnv γ) (ts : List AttrTable) :
    PyEnv γ × Except String (List (RefRow γ)) :=
  let out := env.sf_gdf
  (env, merge_chain out ts)

/-- The geocode loop of PythonCode3.py lines 225-235, with the geocoding
    provider as an oracle g: every address is looked up in source order and
    its row records the returned coordinates, or missing coordinates (NaN
    lat/long) when the lookup returns nothing. -/
def pantryRecords (g : List Char → Option (ℚ × ℚ)) (addrs : List (List Char)) :
    List (List Char × Option (ℚ × ℚ)) :=
  addrs.map (fun a => (a, g a))

/-- pantries = pantries.dropna(subset=["lat", "long"]) (PythonCode3.py
    line 237): keep exactly the rows with coordinates, in order.  The kept
    rows feed the point layer and the 1-mile coverage buffers. -/
def pantryKept (g : List Char → Option (ℚ × ℚ)) (addrs : List (List Char)) :
    List (List Char × Option (ℚ × ℚ)) :=
  (pantryRecords g addrs).filter (fun r => r.2.isSome)

/-- The marker loop of PythonCode3.py lines 364-367: it walks the kept
    rows and skips any row whose lat or long is still missing. -/
def pantryMarkers (g : List Char → Option (ℚ × ℚ)) (addrs : List (List Char)) :
    List (List Char × Option (ℚ × ℚ)) :=
  (pantryKept g addrs).filter (fun r => r.2.isSome)

/-- Columns of the concrete merged row used against claim C1: one under-18
    age-band column and Total. -/
def ceCols : List String := ["Male..5.to.9.years", "Total"]

/-- A concrete merged row with five residents aged 5 to 9 and a total
    population of zero. -/
def ceRow : String → Option ℚ := fun c =>
  if c = "Male..5.to.9.years" then some 5
  else if c = "Total" then some 0
  else none

/-- The concrete geocoding oracle used for claim C8: it fails on address
    "A" and returns coordinates for every other address. -/
def ceGeo : List Char → Option (ℚ × ℚ) := fun a =>
  if a = strL "A" then none else some (1, 2)

/-- The concrete address list used for claim C8. -/
def ceAddrs : List (List Char) := [strL "A", strL "B"]

/-! ## Helper lemmas -/

theorem digitsValN_nil : digitsValN [] = 0 := rfl

theorem foldl_add_getD_zero (row : String → Option ℚ) :
    ∀ (l : List String) (a : ℚ), (∀ c ∈ l, row c = none) →
      l.foldl (fun acc c => acc + ((row c).getD 0)) a = a := by
  intro l
  induction l with
  | nil => intro a _; rfl
  | cons c cs ih =>
      intro a h
      have hc : row c = none := h c (List.mem_cons_self c cs)
      have hcs : ∀ d ∈ cs, row d = none := fun d hd => h d (List.mem_cons_of_mem c hd)
      simp only [List.foldl_cons, hc, Option.getD_none, add_zero]
      exact ih a hcs

theorem isEmpty_false_of_ne_nil {α : Type} {l : List α} (h : l ≠ []) :
    l.isEmpty = false := by
  cases l with
  | nil => exact absurd rfl h
  | cons x xs => rfl

theorem dropWhile_eq_self_of_all_false {α : Type} {p : α → Bool} :
    ∀ l : List α, (∀ x ∈ l, p x = false) → l.dropWhile p = l := by
  intro l
  induction l with
  | nil => intro _; rfl
  | cons x xs _ =>
      intro h
      rw [List.dropWhile_cons, if_neg (by simp [h x (List.mem_cons_self x xs)])]

theorem dropWhile_eq_nil_of_all_true {α : Type} {p : α → Bool} :
    ∀ l : List α, (∀ x ∈ l, p x = true) → l.dropWhile p = [] := by
  intro l
  induction l with
  | nil => intro _; rfl
  | cons x xs ih =>
      intro h
      rw [List.dropWhile_cons, if_pos (h x (List.mem_cons_self x xs))]
      exact ih (fun y hy => h y (List.mem_cons_of_mem x hy))

theorem takeWhile_eq_self_of_all_true {α : Type} {p : α → Bool} :
    ∀ l : List α, (∀ x ∈ l, p x = true) → l.takeWhile p = l := by
  intro l
  induction l with
  | nil => intro _; rfl
  | cons x xs ih =>
      intro h
      rw [List.takeWhile_cons, if_pos (h x (List.mem_cons_self x xs)),
        ih (fun y hy => h y (List.mem_cons_of_mem x hy))]

theorem takeWhile_append_all {α : Type} {p : α → Bool} :
    ∀ (a l : List α), (∀ x ∈ a, p x = true) →
      (a ++ l).takeWhile p = a ++ l.takeWhile p := by
  intro a
  induction a with
  | nil => intro l _; rfl
  | cons x xs ih =>
      intro l h
      rw [List.cons_append, List.takeWhile_cons, if_pos (h x (List.mem_cons_self x xs)),
        ih l (fun y hy => h y (List.mem_cons_of_mem x hy)), List.cons_append]

theorem dropWhile_append_all {α : Type} {p : α → Bool} :
    ∀ (a l : List α), (∀ x ∈ a, p x = true) →
      (a ++ l).dropWhile p = l.dropWhile p := by
  intro a
  induction a with
  | nil => intro l _; rfl
  | cons x xs ih =>
      intro l h
      rw [List.cons_append, List.dropWhile_cons, if_pos (h x (List.mem_cons_self x xs))]
      exact ih l (fun y hy => h y (List.mem_cons_of_mem x hy))

theorem dropWhile_append_split {α : Type} {p : α → Bool} :
    ∀ (a b : List α), (a ++ b).dropWhile p =
      if (a.dropWhile p).isEmpty then b.dropWhile p else a.dropWhile p ++ b := by
  intro a
  induction a with
  | nil => intro b; simp
  | cons x xs ih =>
      intro b
      rw [List.cons_append, List.dropWhile_cons, List.dropWhile_cons]
      cases hx : p x
      · rw [if_neg (by simp), if_neg (by simp),
          if_neg (by simp), List.cons_append]
      · rw [if_pos rfl, if_pos rfl]
        exact ih b

theorem dropWhile_idem {α : Type} {p : α → Bool} :
    ∀ l : List α, (l.dropWhile p).dropWhile p = l.dropWhile p := by
  intro l
  induction l with
  | nil => rfl
  | cons x xs ih =>
      rw [List.dropWhile_cons]
      cases hx : p x
      · rw [if_neg (by simp), List.dropWhile_cons, if_neg (by simp [hx])]
      · rw [if_pos rfl]
        exact ih

theorem dropWhile_exists_prepend {α : Type} {p : α → Bool} :
    ∀ l : List α, ∃ t, t ++ l.dropWhile p = l := by
  intro l
  induction l with
  | nil => exact ⟨[], rfl⟩
  | cons x xs ih =>
      cases hx : p x
      · exact ⟨[], by rw [List.dropWhile_cons, if_neg (by simp [hx])]; rfl⟩
      · obtain ⟨t, ht⟩ := ih
        refine ⟨x :: t, ?_⟩
        rw [List.dropWhile_cons, if_pos hx, List.cons_append, ht]

theorem mem_dropWhile {α : Type} {p : α → Bool} {x : α} {l : List α}
    (h : x ∈ l.dropWhile p) : x ∈ l := by
  obtain ⟨t, ht⟩ := dropWhile_exists_prepend (p := p) l
  rw [← ht]
  exact List.mem_append_right t h

theorem dropWhile_head_false {α : Type} {p : α → Bool} {y : α} {ys : List α} :
    ∀ {l : List α}, l.dropWhile p = y :: ys → p y = false := by
  intro l
  induction l with
  | nil => intro h; cases h
  | cons x xs ih =>
      intro h
      rw [List.dropWhile_cons] at h
      cases hx : p x
      · rw [if_neg (by simp [hx])] at h
        injection h with h1 _
        rw [← h1]
        exact hx
      · rw [if_pos hx] at h
        exact ih h

theorem mem_takeWhile_true {α : Type} {p : α → Bool} :
    ∀ {l : List α} {x : α}, x ∈ l.takeWhile p → p x = true := by
  intro l
  induction l with
  | nil => intro x h; cases h
  | cons y ys ih =>
      intro x h
      rw [List.takeWhile_cons] at h
      cases hy : p y
      · rw [if_neg (by simp [hy])] at h
        cases h
      · rw [if_pos hy] at h
        rcases List.mem_cons.mp h with rfl | h2
        · exact hy
        · exact ih h2

theorem rtrim_idem {α : Type} (p : α → Bool) (l : List α) :
    rtrim p (rtrim p l) = rtrim p l := by
  unfold rtrim
  rw [List.reverse_reverse, dropWhile_idem]

theorem rtrim_append_eq {α : Type} (p : α → Bool) (l : List α) :
    ∃ t, rtrim p l ++ t = l := by
  obtain ⟨t, ht⟩ := dropWhile_exists_prepend (p := p) l.reverse
  refine ⟨t.reverse, ?_⟩
  have h2 := congrArg List.reverse ht
  rw [List.reverse_append, List.reverse_reverse] at h2
  exact h2

theorem mem_rtrim {α : Type} {p : α → Bool} {x : α} {l : List α}
    (h : x ∈ rtrim p l) : x ∈ l := by
  unfold rtrim at h
  rw [List.mem_reverse] at h
  exact List.mem_reverse.mp (mem_dropWhile h)

theorem rtrim_ne_nil {α : Type} {p : α → Bool} {l : List α} {y : α} {ys : List α}
    (h : l.reverse.dropWhile p = y :: ys) : rtrim p l ≠ [] := by
  unfold rtrim
  rw [h]
  simp

theorem dropWhile_rtrim_fix {α : Type} {p : α → Bool} (m : List α)
    (hm : m.dropWhile p = m) : (rtrim p m).dropWhile p = rtrim p m := by
  obtain ⟨t, ht⟩ := rtrim_append_eq p m
  cases hr : rtrim p m with
  | nil => rfl
  | cons y ys =>
      have hy : p y = false := by
        rw [hr, List.cons_append] at ht
        rw [← ht] at hm
        exact dropWhile_head_false hm
      rw [List.dropWhile_cons, if_neg (by simp [hy])]

theorem pyStrip_idem (l : List Char) : pyStrip (pyStrip l) = pyStrip l := by
  unfold pyStrip
  rw [dropWhile_rtrim_fix _ (dropWhile_idem _), rtrim_idem]

theorem pyStrip_eq_self {l : List Char} (h : ∀ c ∈ l, isPySpace c = false) :
    pyStrip l = l := by
  unfold pyStrip
  rw [dropWhile_eq_self_of_all_false l h]
  unfold rtrim
  rw [dropWhile_eq_self_of_all_false l.reverse
    (fun c hc => h c (List.mem_reverse.mp hc)), List.reverse_reverse]

theorem isPySpace_false_of_digit {c : Char} (h : isDigitC c = true) :
    isPySpace c = false := by
  cases hs : isPySpace c
  · rfl
  · exfalso
    unfold isPySpace at hs
    simp only [Bool.or_eq_true, beq_iff_eq] at hs
    rcases hs with ((((rfl | rfl) | rfl) | rfl) | rfl) | rfl <;> exact absurd h (by decide)

theorem beq_dot_false_of_digit {c : Char} (h : isDigitC c = true) :
    (c == '.') = false := by
  cases hd : c == '.'
  · rfl
  · exfalso
    have hc : c = '.' := eq_of_beq hd
    subst hc
    exact absurd h (by decide)

theorem matchesNum_digits {l : List Char} (hne : l ≠ [])
    (hd : ∀ c ∈ l, isDigitC c = true) : matchesNum l = true := by
  unfold matchesNum
  rw [takeWhile_eq_self_of_all_true l hd, dropWhile_eq_nil_of_all_true l hd]
  cases l with
  | nil => exact absurd rfl hne
  | cons x xs => rfl

theorem matchesNum_frac {a b : List Char} (ha : a ≠ []) (hb : b ≠ [])
    (hda : ∀ c ∈ a, isDigitC c = true) (hdb : ∀ c ∈ b, isDigitC c = true) :
    matchesNum (a ++ '.' :: b) = true := by
  unfold matchesNum
  rw [takeWhile_append_all a _ hda, dropWhile_append_all a _ hda,
    List.takeWhile_cons, List.dropWhile_cons,
    if_neg (by simp [isDigitC]), if_neg (by simp [isDigitC])]
  simp [isEmpty_false_of_ne_nil ha, isEmpty_false_of_ne_nil hb,
    List.all_eq_true.mpr hdb]

theorem matchesNum_cases {l : List Char} (h : matchesNum l = true) :
    (l ≠ [] ∧ ∀ c ∈ l, isDigitC c = true) ∨
    (∃ a b, l = a ++ '.' :: b ∧ a ≠ [] ∧ b ≠ [] ∧
      (∀ c ∈ a, isDigitC c = true) ∧ (∀ c ∈ b, isDigitC c = true)) := by
  unfold matchesNum at h
  rw [Bool.and_eq_true] at h
  obtain ⟨h1, h2⟩ := h
  have hip : l.takeWhile isDigitC ≠ [] := by
    intro hnil
    rw [hnil] at h1
    simp at h1
  rw [Bool.or_eq_true] at h2
  cases h2 with
  | inl h2 =>
      left
      have hdw : l.dropWhile isDigitC = [] := List.isEmpty_iff.mp h2
      have hl : l = l.takeWhile isDigitC := by
        conv_lhs => rw [← List.takeWhile_append_dropWhile (p := isDigitC) (l := l)]
        rw [hdw, List.append_nil]
      constructor
      · intro hn
        exact hip (by rw [hn]; rfl)
      · intro c hc
        rw [hl] at hc
        exact mem_takeWhile_true hc
  | inr h2 =>
      right
      rw [Bool.and_eq_true, Bool.and_eq_true] at h2
      obtain ⟨⟨hA, hB⟩, hC⟩ := h2
      cases hdw : l.dropWhile isDigitC with
      | nil => rw [hdw] at hA; simp at hA
      | cons y ys =>
          have hy : y = '.' := by
            rw [hdw] at hA
            simp only [List.head?_cons, beq_iff_eq, Option.some.injEq] at hA
            exact hA
          subst hy
          refine ⟨l.takeWhile isDigitC, ys, ?_, hip, ?_, ?_, ?_⟩
          · conv_lhs => rw [← List.takeWhile_append_dropWhile (p := isDigitC) (l := l)]
            rw [hdw]
          · rw [hdw] at hB
            simp only [List.tail_cons] at hB
            intro hn
            rw [hn] at hB
            simp at hB
          · intro c hc
            exact mem_takeWhile_true hc
          · rw [hdw] at hC
            simp only [List.tail_cons] at hC
            exact fun c hc => List.all_eq_true.mp hC c hc

theorem any_dot_false_of_digits {l : List Char}
    (hd : ∀ c ∈ l, isDigitC c = true) :
    l.any (fun c => c == '.') = false := by
  cases hany : l.any (fun c => c == '.')
  · rfl
  · exfalso
    obtain ⟨c, hc, hcd⟩ := List.any_eq_true.mp hany
    rw [beq_dot_false_of_digit (hd c hc)] at hcd
    cases hcd

theorem stripDotZeros_digits {l : List Char}
    (hd : ∀ c ∈ l, isDigitC c = true) : stripDotZeros l = l := by
  unfold stripDotZeros
  rw [if_neg (by simp [any_dot_false_of_digits hd])]

theorem rstrip0_frac (a b : List Char) :
    rstripC '0' (a ++ '.' :: b) =
      if (rstripC '0' b).isEmpty then a ++ ['.'] else a ++ '.' :: rstripC '0' b := by
  unfold rstripC rtrim
  rw [show (a ++ '.' :: b).reverse = b.reverse ++ '.' :: a.reverse from by
        rw [List.reverse_append, List.reverse_cons, List.append_assoc,
          List.singleton_append],
      dropWhile_append_split]
  cases hz : b.reverse.dropWhile (fun d => d == '0') with
  | nil =>
      rw [if_pos (by simp), if_pos (by simp), List.dropWhile_cons,
        if_neg (by simp), List.reverse_cons, List.reverse_reverse]
  | cons y ys =>
      rw [if_neg (by simp), if_neg (by simp)]
      simp [List.reverse_cons, List.reverse_append, List.append_assoc]

theorem rtrim_eq_self_of_head {α : Type} {p : α → Bool} {y : α} {ys l : List α}
    (hrev : l.reverse = y :: ys) (hy : p y = false) : rtrim p l = l := by
  unfold rtrim
  rw [hrev, List.dropWhile_cons, if_neg (by simp [hy]), ← hrev,
    List.reverse_reverse]

theorem rstripDot_digits_dot (a : List Char)
    (hda : ∀ c ∈ a, isDigitC c = true) : rstripC '.' (a ++ ['.']) = a := by
  unfold rstripC rtrim
  rw [show (a ++ ['.']).reverse = '.' :: a.reverse from by
        rw [List.reverse_append]; rfl]
  rw [List.dropWhile_cons, if_pos (by simp)]
  rw [dropWhile_eq_self_of_all_false a.reverse
    (fun c hc => beq_dot_false_of_digit (hda c (List.mem_reverse.mp hc)))]
  exact List.reverse_reverse a

theorem rstripC_idem (c : Char) (l : List Char) :
    rstripC c (rstripC c l) = rstripC c l := rtrim_idem _ l

theorem no_space_frac {a b : List Char} (hda : ∀ c ∈ a, isDigitC c = true)
    (hdb : ∀ c ∈ b, isDigitC c = true) :
    ∀ c ∈ a ++ '.' :: b, isPySpace c = false := by
  intro c hc
  rcases List.mem_append.mp hc with hc | hc
  · exact isPySpace_false_of_digit (hda c hc)
  · rcases List.mem_cons.mp hc with rfl | hc
    · decide
    · exact isPySpace_false_of_digit (hdb c hc)

theorem norm_eval_digits {l t : List Char} (hps : pyStrip l = t) (hne : t ≠ [])
    (hd : ∀ c ∈ t, isDigitC c = true) : norm_tract_name l = t := by
  unfold norm_tract_name
  rw [hps, if_pos (matchesNum_digits hne hd), stripDotZeros_digits hd,
    if_neg (by simp [isEmpty_false_of_ne_nil hne])]

theorem norm_eval_frac {l a b : List Char} (hps : pyStrip l = a ++ '.' :: b)
    (ha : a ≠ []) (hb : b ≠ [])
    (hda : ∀ c ∈ a, isDigitC c = true) (hdb : ∀ c ∈ b, isDigitC c = true) :
    norm_tract_name l =
      a ++ (if (rstripC '0' b).isEmpty then [] else '.' :: rstripC '0' b) := by
  have happend_ne : a ++ '.' :: b ≠ [] := by
    cases a with
    | nil => exact absurd rfl ha
    | cons x xs => simp
  have hany : (a ++ '.' :: b).any (fun c => c == '.') = true := by
    rw [List.any_append]
    simp
  have hsdz : stripDotZeros (a ++ '.' :: b) =
      a ++ (if (rstripC '0' b).isEmpty then [] else '.' :: rstripC '0' b) := by
    unfold stripDotZeros
    rw [if_pos hany, rstrip0_frac]
    cases hz : (rstripC '0' b).isEmpty
    · rw [if_neg (by simp), if_neg (by simp)]
      cases hdw : b.reverse.dropWhile (fun d => d == '0') with
      | nil =>
          exfalso
          have hnil : rstripC '0' b = [] := by
            show rtrim (fun d => d == '0') b = []
            unfold rtrim
            rw [hdw]
            rfl
          rw [hnil] at hz
          simp at hz
      | cons z zs =>
          have hzb : z ∈ b := by
            have hmem : z ∈ b.reverse.dropWhile (fun d => d == '0') := by
              rw [hdw]
              exact List.mem_cons_self z zs
            exact List.mem_reverse.mp (mem_dropWhile hmem)
          have hzdot : (z == '.') = false := beq_dot_false_of_digit (hdb z hzb)
          have hrv : (a ++ '.' :: rstripC '0' b).reverse
              = z :: (zs ++ '.' :: a.reverse) := by
            rw [List.reverse_append, List.reverse_cons, List.append_assoc,
              List.singleton_append,
              show (rstripC '0' b).reverse = z :: zs from by
                show (rtrim (fun d => d == '0') b).reverse = z :: zs
                unfold rtrim
                rw [List.reverse_reverse, hdw],
              List.cons_append]
          exact rtrim_eq_self_of_head hrv hzdot
    · rw [if_pos rfl, if_pos rfl, List.append_nil]
      exact rstripDot_digits_dot a hda
  have hout_ne :
      ¬((a ++ (if (rstripC '0' b).isEmpty then [] else '.' :: rstripC '0' b)).isEmpty
        = true) := by
    cases a with
    | nil => exact absurd rfl ha
    | cons x xs => simp
  unfold norm_tract_name
  rw [hps, if_pos (matchesNum_frac ha hb hda hdb), hsdz, if_neg hout_ne]

theorem map_self {α : Type} (l : List α) (f : α → α) (h : ∀ x, f x = x) :
    l.map f = l := by
  induction l with
  | nil => rfl
  | cons x xs ih => rw [List.map_cons, h x, ih]

theorem map_ext {α β : Type} (l : List α) (f g : α → β) (h : ∀ x, f x = g x) :
    l.map f = l.map g := by
  induction l with
  | nil => rfl
  | cons x xs ih => rw [List.map_cons, List.map_cons, h x, ih]

theorem filter_key_nodup (k : String) :
    ∀ rows : List (String × List ℚ), (rows.map Prod.fst).Nodup →
      rows.filter (fun p => p.1 == k) = [] ∨
      ∃ q, rows.filter (fun p => p.1 == k) = [q] ∧ q ∈ rows ∧ q.1 = k := by
  intro rows
  induction rows with
  | nil => intro _; left; rfl
  | cons r rs ih =>
      intro hnd
      rw [List.map_cons, List.nodup_cons] at hnd
      obtain ⟨hr, hnd2⟩ := hnd
      rw [List.filter_cons]
      cases hk : (r.1 == k)
      · rw [if_neg (by simp)]
        rcases ih hnd2 with h | ⟨q, hq, hqm, hqk⟩
        · left; exact h
        · right; exact ⟨q, hq, List.mem_cons_of_mem r hqm, hqk⟩
      · rw [if_pos rfl]
        right
        refine ⟨r, ?_, List.mem_cons_self r rs, eq_of_beq hk⟩
        have hnil : rs.filter (fun p => p.1 == k) = [] := by
          rw [List.filter_eq_nil_iff]
          intro p hp hpk
          exact hr (List.mem_map.mpr
            ⟨p, hp, by rw [eq_of_beq hpk, ← eq_of_beq hk]⟩)
        rw [hnil]

theorem mergeLeft_eq_map {γ : Type} (out : List (RefRow γ)) (t : AttrTable)
    (hnd : (t.rows.map Prod.fst).Nodup) :
    mergeLeft out t =
      out.map (fun r => { r with attrs := r.attrs ++ specLookup t r.name }) := by
  unfold mergeLeft
  induction out with
  | nil => rfl
  | cons r rs ih =>
      rw [List.map_cons, List.map_cons, List.flatten_cons, ih]
      rcases filter_key_nodup r.name t.rows hnd with h | ⟨q, hq, _, _⟩
      · unfold specLookup
        simp only [h, List.singleton_append]
      · unfold specLookup
        simp only [hq, List.map_cons, List.map_nil, List.singleton_append]

theorem mergeChainAux_ok {γ : Type} :
    ∀ (ts : List AttrTable) (out : List (RefRow γ)),
      (∀ t ∈ ts, t.hasName = true) →
      (∀ t ∈ ts, (t.rows.map Prod.fst).Nodup) →
      mergeChainAux out ts = .ok (out.map (fun r =>
        { r with attrs :=
            r.attrs ++ (ts.map (fun t => specLookup t r.name)).flatten })) := by
  intro ts
  induction ts with
  | nil =>
      intro out _ _
      show Except.ok out = _
      rw [map_self out _ (fun r => by
        rw [List.map_nil, List.flatten_nil, List.append_nil])]
  | cons t ts ih =>
      intro out hname hnd
      show (if t.hasName then mergeChainAux (mergeLeft out t) ts else _) = _
      rw [if_pos (hname t (List.mem_cons_self t ts)),
        mergeLeft_eq_map out t (hnd t (List.mem_cons_self t ts)),
        ih _ (fun u hu => hname u (List.mem_cons_of_mem t hu))
             (fun u hu => hnd u (List.mem_cons_of_mem t hu))]
      refine congrArg Except.ok ?_
      rw [List.map_map]
      apply map_ext
      intro r
      show { r with attrs :=
          (r.attrs ++ specLookup t r.name) ++
            (ts.map (fun u => specLookup u r.name)).flatten } =
        { r with attrs :=
          r.attrs ++ ((t :: ts).map (fun u => specLookup u r.name)).flatten }
      rw [List.map_cons, List.flatten_cons, List.append_assoc]

/-! ## Claim theorems -/

/-- C1 counterexample: on a merged row whose under-18 sum is 5 and whose
    Total is 0, the derived percent is positive infinity, not "no value":
    add_age_metrics has no divide-by-zero guard, and pandas float division
    of a positive cell by zero yields inf. -/
theorem under18Per_zero_total_not_na :
    under18PerOf ceCols ceRow = PFloat.pinf ∧ PFloat.pinf ≠ PFloat.na := by
  constructor
  · have h1 : safe_sum ceCols ceRow u18_cols = some 5 := by
      show safe_sum ceCols ceRow u18_cols = some 5
      simp [safe_sum, ceCols, ceRow, u18_cols]
    have h2 : totalOf ceCols ceRow = some 0 := by
      simp [totalOf, ceCols, ceRow]
    rw [under18PerOf, h1, h2]
    norm_num [agePercent, seriesDiv, pMul100]
  · simp

/-- C1 (amended): the derived age-band percent is "no value" whenever
    either operand is "no value" or when the age-band sum and the total are
    both zero; a zero total with a positive sum yields positive infinity
    and with a negative sum negative infinity (never a divide-by-zero
    fault), while a nonzero total gives the exact percent. -/
theorem agePercent_na_and_infinity :
    (∀ s t : Option ℚ, s = none ∨ t = none → agePercent s t = PFloat.na) ∧
    agePercent (some 0) (some 0) = PFloat.na ∧
    (∀ a : ℚ, 0 < a → agePercent (some a) (some 0) = PFloat.pinf) ∧
    (∀ a : ℚ, a < 0 → agePercent (some a) (some 0) = PFloat.ninf) ∧
    (∀ a b : ℚ, b ≠ 0 → agePercent (some a) (some b) = PFloat.num (a / b * 100)) := by
  refine ⟨?_, by norm_num [agePercent, seriesDiv, pMul100], ?_, ?_, ?_⟩
  · rintro s t (rfl | rfl)
    · simp [agePercent, seriesDiv, pMul100]
    · cases s <;> simp [agePercent, seriesDiv, pMul100]
  · intro a ha
    simp [agePercent, seriesDiv, pMul100, ne_of_gt ha, ha]
  · intro a ha
    simp [agePercent, seriesDiv, pMul100, ne_of_lt ha, not_lt.mpr (le_of_lt ha), ha.ne]
  · intro a b hb
    simp [agePercent, seriesDiv, pMul100, hb]

/-- C1 witness: the amended theorem applied at concrete rows. -/
theorem agePercent_na_and_infinity_witness :
    agePercent none (some 1) = PFloat.na ∧
    agePercent (some 7) (some 0) = PFloat.pinf ∧
    agePercent (some (-3)) (some 0) = PFloat.ninf ∧
    agePercent (some 1) (some 4) = PFloat.num (1 / 4 * 100) :=
  ⟨agePercent_na_and_infinity.1 none (some 1) (Or.inl rfl),
   agePercent_na_and_infinity.2.2.1 7 (by norm_num),
   agePercent_na_and_infinity.2.2.2.1 (-3) (by norm_num),
   agePercent_na_and_infinity.2.2.2.2 1 4 (by norm_num)⟩

/-- C2: poverty scale normalization multiplies by 100 exactly when the raw
    value is at most 1.5 (the boundary is inclusive, so 1.5 gives 150) and
    leaves larger values unchanged; 0.18 gives 18 and 18 stays 18. -/
theorem povertyPct_threshold :
    (∀ v : ℚ, v ≤ 3 / 2 → povertyPct v = v * 100) ∧
    (∀ v : ℚ, 3 / 2 < v → povertyPct v = v) ∧
    povertyPct (18 / 100) = 18 ∧ povertyPct 18 = 18 ∧ povertyPct (3 / 2) = 150 := by
  refine ⟨fun v h => by simp [povertyPct, h],
          fun v h => by simp [povertyPct, not_le.mpr h], ?_, ?_, ?_⟩ <;>
    norm_num [povertyPct]

/-- C2 witness: the threshold theorem applied at 0.5 and at 2. -/
theorem povertyPct_threshold_witness :
    povertyPct (1 / 2) = 50 ∧ povertyPct 2 = 2 := by
  constructor
  · rw [povertyPct_threshold.1 (1 / 2) (by norm_num)]; norm_num
  · exact povertyPct_threshold.2.1 2 (by norm_num)

/-- C3: tract-name normalization strips trailing zero digits from the
    fractional part of a decimal-number string and strips the point itself
    when the fraction becomes empty ("113.10" gives "113.1", "101.02" is
    unchanged, "100" is unchanged, any all-digit name is unchanged), and
    passes every non-numeric string through with only whitespace trimmed. -/
theorem norm_tract_name_spec :
    norm_tract_name (strL "113.10") = strL "113.1" ∧
    norm_tract_name (strL "101.02") = strL "101.02" ∧
    norm_tract_name (strL "100") = strL "100" ∧
    (∀ l : List Char, matchesNum (pyStrip l) = false →
      norm_tract_name l = pyStrip l) ∧
    (∀ a b : List Char, a ≠ [] → b ≠ [] →
      (∀ c ∈ a, isDigitC c = true) → (∀ c ∈ b, isDigitC c = true) →
      norm_tract_name (a ++ '.' :: b) =
        a ++ (if (rstripC '0' b).isEmpty then [] else '.' :: rstripC '0' b)) ∧
    (∀ a : List Char, a ≠ [] → (∀ c ∈ a, isDigitC c = true) →
      norm_tract_name a = a) := by
  refine ⟨by decide, by decide, by decide, ?_, ?_, ?_⟩
  · intro l h
    unfold norm_tract_name
    rw [if_neg (by simp [h])]
  · intro a b ha hb hda hdb
    exact norm_eval_frac (pyStrip_eq_self (no_space_frac hda hdb)) ha hb hda hdb
  · intro a ha hda
    exact norm_eval_digits (pyStrip_eq_self
      (fun c hc => isPySpace_false_of_digit (hda c hc))) ha hda

/-- C3 witness: the general fractional-strip and all-digits clauses of the
    claim theorem applied at "113.10" and "07". -/
theorem norm_tract_name_spec_witness :
    norm_tract_name (strL "113.10") = strL "113.1" ∧
    norm_tract_name (strL "07") = strL "07" := by
  constructor
  · have h := norm_tract_name_spec.2.2.2.2.1 (strL "113") (strL "10")
      (by decide) (by decide) (by decide) (by decide)
    rw [show strL "113.10" = strL "113" ++ '.' :: strL "10" from by decide, h]
    decide
  · exact norm_tract_name_spec.2.2.2.2.2 (strL "07") (by decide) (by decide)

/-- C7: tract-name normalization is idempotent: for every string,
    normalizing the result of normalizing it returns it unchanged. -/
theorem norm_tract_name_idem :
    ∀ l : List Char, norm_tract_name (norm_tract_name l) = norm_tract_name l := by
  intro l
  cases hm : matchesNum (pyStrip l)
  · have h1 : norm_tract_name l = pyStrip l := by
      unfold norm_tract_name
      rw [if_neg (by simp [hm])]
    rw [h1]
    unfold norm_tract_name
    rw [pyStrip_idem, if_neg (by simp [hm])]
  · rcases matchesNum_cases hm with ⟨hne, hd⟩ | ⟨a, b, heq, ha, hb, hda, hdb⟩
    · have h1 : norm_tract_name l = pyStrip l := norm_eval_digits rfl hne hd
      rw [h1]
      exact norm_eval_digits (pyStrip_idem l) hne hd
    · have h1 : norm_tract_name l =
          a ++ (if (rstripC '0' b).isEmpty then [] else '.' :: rstripC '0' b) :=
        norm_eval_frac heq ha hb hda hdb
      rw [h1]
      cases hz : (rstripC '0' b).isEmpty
      · rw [if_neg (by simp)]
        have hdne : rstripC '0' b ≠ [] := by
          intro hn
          rw [hn] at hz
          simp at hz
        have hdd : ∀ c ∈ rstripC '0' b, isDigitC c = true :=
          fun c hc => hdb c (mem_rtrim hc)
        have hres := norm_eval_frac
          (pyStrip_eq_self (no_space_frac hda hdd)) ha hdne hda hdd
        rw [hres, rstripC_idem, if_neg (by simp [hz])]
      · rw [if_pos rfl, List.append_nil]
        exact norm_eval_digits (pyStrip_eq_self
          (fun c hc => isPySpace_false_of_digit (hda c hc))) ha hda

/-- C4: when every attribute table exposes NAME and has pairwise distinct
    keys, merge_chain succeeds and returns exactly one row per reference
    polygon, in reference order, each keeping its key and geometry and
    carrying, for each attribute table in turn, the matching row's fields —
    or one "no value" per field when its key is absent from that table. -/
theorem merge_chain_left_outer :
    ∀ (γ : Type) (ref : List (RefRow γ)) (ts : List AttrTable),
      (∀ t ∈ ts, t.hasName = true) →
      (∀ t ∈ ts, (t.rows.map Prod.fst).Nodup) →
      merge_chain ref ts = .ok (ref.map (fun r =>
        { r with attrs :=
            r.attrs ++ (ts.map (fun t => specLookup t r.name)).flatten })) ∧
      (∀ out, merge_chain ref ts = .ok out →
        out.length = ref.length ∧
        out.map (fun r => r.name) = ref.map (fun r => r.name) ∧
        out.map (fun r => r.geom) = ref.map (fun r => r.geom)) ∧
      (∀ (t : AttrTable) (k : String), k ∉ t.rows.map Prod.fst →
        specLookup t k = List.replicate t.width none) := by
  intro γ ref ts hname hnd
  have hok : merge_chain ref ts = .ok (ref.map (fun r =>
      { r with attrs :=
          r.attrs ++ (ts.map (fun t => specLookup t r.name)).flatten })) :=
    mergeChainAux_ok ts ref hname hnd
  refine ⟨hok, ?_, ?_⟩
  · intro out hout
    rw [hout] at hok
    have heq : out = ref.map (fun r =>
        { r with attrs :=
            r.attrs ++ (ts.map (fun t => specLookup t r.name)).flatten }) :=
      Except.ok.inj hok
    subst heq
    refine ⟨List.length_map ref _, ?_, ?_⟩
    · rw [List.map_map]
      rfl
    · rw [List.map_map]
      rfl
  · intro t k hk
    unfold specLookup
    have hnil : t.rows.filter (fun p => p.1 == k) = [] := by
      rw [List.filter_eq_nil_iff]
      intro p hp hpk
      exact hk (List.mem_map.mpr ⟨p, hp, eq_of_beq hpk⟩)
    simp only [hnil]

/-- The three-polygon reference table of the end-to-end merge scenario. -/
def ceRef : List (RefRow ℕ) :=
  [⟨"1", 10, []⟩, ⟨"2", 20, []⟩, ⟨"3", 30, []⟩]

/-- The one attribute table of the scenario: keys "1" and "3" carry one
    population field each; key "2" is absent. -/
def ceTbl : AttrTable := ⟨true, 1, [("1", [5]), ("3", [7])]⟩

/-- C4 witness: the left-outer theorem applied to the three-polygon
    scenario; the unmatched polygon "2" survives with a "no value" field. -/
theorem merge_chain_left_outer_witness :
    merge_chain ceRef [ceTbl] = .ok
      [⟨"1", 10, [some 5]⟩, ⟨"2", 20, [none]⟩, ⟨"3", 30, [some 7]⟩] := by
  rw [(merge_chain_left_outer ℕ ceRef [ceTbl] (by decide) (by decide)).1]
  rfl

/-- C5 counterexample: on "3-4" parse_number keeps the interior minus sign
    (its regex keeps every minus) so float() fails and the result is
    "no value", while the strip rule the claim states (minus kept only when
    leading) would leave "34" and produce 34; the claimed rule therefore
    mis-describes the code. -/
theorem parse_number_interior_minus_ce :
    parse_number (some (strL "3-4")) = none ∧
    parseNumberSpecDescribed (some (strL "3-4")) = some 34 ∧
    parse_number (some (strL "3-4")) ≠ parseNumberSpecDescribed (some (strL "3-4")) := by
  have h1 : splitFloat ((strL "3-4").filter keepNumChar) = none := by decide
  have h2 : splitFloat (stripSpecDescribed (strL "3-4")) =
      some (false, strL "34", ([] : List Char)) := by decide
  have h3 : digitsValN (strL "34") = 34 := by decide
  have e1 : parse_number (some (strL "3-4")) = none := by
    simp [parse_number, floatOfChars, h1]
  have e2 : parseNumberSpecDescribed (some (strL "3-4")) = some 34 := by
    simp [parseNumberSpecDescribed, floatOfChars, h2, ratOfSplit, digitsVal, h3,
      digitsValN_nil]
  exact ⟨e1, e2, by rw [e1, e2]; simp⟩

/-- C5 (amended): parse_number strips every character that is not a digit,
    a decimal point, or a minus sign AT ANY POSITION, then parses the
    residue with float(): "$56,123" gives 56123.0, "12.3%" gives 12.3, a
    leading minus is honoured ("-12" gives -12), and an empty string, a
    non-numeric residue, a residue with an interior minus ("3-4"), or a
    null input all give "no value", never a raised error. -/
theorem parse_number_examples :
    parse_number none = none ∧
    parse_number (some (strL "$56,123")) = some 56123 ∧
    parse_number (some (strL "12.3%")) = some (123 / 10) ∧
    parse_number (some (strL "-12")) = some (-12) ∧
    parse_number (some (strL "")) = none ∧
    parse_number (some (strL "abc%$")) = none ∧
    parse_number (some (strL "3-4")) = none := by
  refine ⟨rfl, ?_, ?_, ?_, ?_, ?_, ?_⟩
  · have h1 : splitFloat ((strL "$56,123").filter keepNumChar) =
        some (false, strL "56123", ([] : List Char)) := by decide
    have h2 : digitsValN (strL "56123") = 56123 := by decide
    simp [parse_number, floatOfChars, h1, ratOfSplit, digitsVal, h2, digitsValN_nil]
  · have h1 : splitFloat ((strL "12.3%").filter keepNumChar) =
        some (false, strL "12", strL "3") := by decide
    have h2 : digitsValN (strL "12") = 12 := by decide
    have h3 : digitsValN (strL "3") = 3 := by decide
    simp [parse_number, floatOfChars, h1, ratOfSplit, digitsVal, h2, h3]
    norm_num [strL]
  · have h1 : splitFloat ((strL "-12").filter keepNumChar) =
        some (true, strL "12", ([] : List Char)) := by decide
    have h2 : digitsValN (strL "12") = 12 := by decide
    simp [parse_number, floatOfChars, h1, ratOfSplit, digitsVal, h2, digitsValN_nil]
  · have h1 : splitFloat ((strL "").filter keepNumChar) = none := by decide
    simp [parse_number, floatOfChars, h1]
  · have h1 : splitFloat ((strL "abc%$").filter keepNumChar) = none := by decide
    simp [parse_number, floatOfChars, h1]
  · have h1 : splitFloat ((strL "3-4").filter keepNumChar) = none := by decide
    simp [parse_number, floatOfChars, h1]

/-- C6 counterexample: county-code normalization is a plain string cast
    with no zero padding, so the integer code 39 becomes "39", which is
    not equal to "039" and is not selected by the three-county filter,
    while the string "039" is selected. -/
theorem countyCode_no_padding_ce :
    astypeStr (.intV 39) = strL "39" ∧
    astypeStr (.intV 39) ≠ astypeStr (.strV (strL "039")) ∧
    countySelect (.intV 39) = false ∧
    countySelect (.strV (strL "039")) = true := by decide

/-- C6 (amended): county codes are normalized by plain string conversion
    without padding: a string code passes through unchanged, the integer 39
    becomes the two-character "39" and is rejected by the county filter
    that accepts the string "039", and no integer below 100 ever reaches
    the three-character width the filter literals have. -/
theorem countyCode_astype_str :
    (∀ s : List Char, astypeStr (.strV s) = s) ∧
    astypeStr (.intV 39) = strL "39" ∧
    countySelect (.intV 39) = false ∧
    countySelect (.strV (strL "039")) = true ∧
    (∀ n : ℕ, n < 100 → (astypeStr (.intV n)).length ≤ 2) := by
  refine ⟨fun s => rfl, by decide, by decide, by decide, by decide⟩

/-- C6 witness: the amended theorem applied at the integer code 39. -/
theorem countyCode_astype_str_witness :
    (astypeStr (.intV 39)).length ≤ 2 :=
  countyCode_astype_str.2.2.2.2 39 (by decide)

/-- C8: a failed or empty geocode result never aborts the run: every
    address yields exactly one recorded row (a failure is recorded with
    missing coordinates), each such row is excluded from both the marker
    and the coverage-buffer inputs, and the remaining rows are processed
    in source order (the kept rows are a sublist of the recorded rows, and
    every successfully geocoded row reaches the markers). -/
theorem geocode_failure_isolated :
    ∀ (g : List Char → Option (ℚ × ℚ)) (addrs : List (List Char)),
      (pantryRecords g addrs).length = addrs.length ∧
      (∀ a ∈ addrs, g a = none →
        (a, (none : Option (ℚ × ℚ))) ∈ pantryRecords g addrs) ∧
      (∀ r ∈ pantryKept g addrs, r.2.isSome = true) ∧
      (∀ r ∈ pantryMarkers g addrs, r.2.isSome = true) ∧
      List.Sublist (pantryKept g addrs) (pantryRecords g addrs) ∧
      pantryMarkers g addrs = pantryKept g addrs ∧
      (∀ a ∈ addrs, ∀ c, g a = some c → (a, some c) ∈ pantryMarkers g addrs) := by
  intro g addrs
  refine ⟨List.length_map addrs _, ?_, ?_, ?_, ?_, ?_, ?_⟩
  · intro a ha hnone
    exact List.mem_map.mpr ⟨a, ha, by rw [hnone]⟩
  · intro r hr
    exact (List.mem_filter.mp hr).2
  · intro r hr
    exact (List.mem_filter.mp (List.mem_filter.mp hr).1).2
  · exact List.filter_sublist _
  · exact List.filter_eq_self.mpr (fun r hr => (List.mem_filter.mp hr).2)
  · intro a ha c hc
    have hmem : (a, some c) ∈ pantryRecords g addrs :=
      List.mem_map.mpr ⟨a, ha, by rw [hc]⟩
    have hk : (a, some c) ∈ pantryKept g addrs :=
      List.mem_filter.mpr ⟨hmem, rfl⟩
    exact List.mem_filter.mpr ⟨hk, rfl⟩

/-- C8 witness: the isolation theorem applied to a two-address run whose
    first geocode fails. -/
theorem geocode_failure_isolated_witness :
    (strL "A", (none : Option (ℚ × ℚ))) ∈ pantryRecords ceGeo ceAddrs ∧
    (strL "B", some ((1 : ℚ), (2 : ℚ))) ∈ pantryMarkers ceGeo ceAddrs :=
  ⟨(geocode_failure_isolated ceGeo ceAddrs).2.1 (strL "A") (by decide) (by decide),
   (geocode_failure_isolated ceGeo ceAddrs).2.2.2.2.2.2 (strL "B") (by decide) (1, 2)
     (by simp [ceGeo, strL])⟩

/-- C9: when at least one configured age-band column exists in the table
    but every such cell in a row is missing or non-numeric, safe_sum gives
    the number 0 for that row; the "no value" result arises exactly when
    none of the configured columns exists at all, so the
    known-zero/unavailable distinction holds only at table granularity. -/
theorem safe_sum_zero_vs_missing :
    ∀ (present : List String) (row : String → Option ℚ) (cols : List String),
      (cols.filter (fun c => present.contains c) = [] →
        safe_sum present row cols = none) ∧
      (cols.filter (fun c => present.contains c) ≠ [] →
        (∀ c ∈ cols.filter (fun c => present.contains c), row c = none) →
        safe_sum present row cols = some 0) := by
  intro present row cols
  constructor
  · intro h
    rw [safe_sum, h]
    rfl
  · intro h hall
    have hne : (cols.filter (fun c => present.contains c)).isEmpty = false := by
      cases hfe : (cols.filter (fun c => present.contains c)).isEmpty
      · rfl
      · exact absurd (List.isEmpty_iff.mp hfe) h
    rw [safe_sum]
    simp only [hne, Bool.false_eq_true, if_false]
    rw [foldl_add_getD_zero row _ 0 hall]

/-- C9 witness: with only "Male..5.to.9.years" present and every cell
    missing the under-18 sum is the number 0; with no column present it is
    "no value". -/
theorem safe_sum_zero_vs_missing_witness :
    safe_sum ["Male..5.to.9.years"] (fun _ => none) u18_cols = some 0 ∧
    safe_sum [] (fun _ => none) u18_cols = none :=
  ⟨(safe_sum_zero_vs_missing ["Male..5.to.9.years"] (fun _ => none) u18_cols).2
      (by decide) (fun c _ => rfl),
   (safe_sum_zero_vs_missing [] (fun _ => none) u18_cols).1 (by decide)⟩

/-- C10: merge_chain never mutates the caller's reference frame: it reads
    sf_gdf once into a copy and every merge builds a new frame, so after
    the call the caller's environment still holds exactly the same rows,
    keys and geometries. -/
theorem merge_chain_no_mutation :
    ∀ (γ : Type) (env : PyEnv γ) (ts : List AttrTable),
      (mergeChainCall env ts).1 = env ∧
      (mergeChainCall env ts).1.sf_gdf = env.sf_gdf ∧
      ((mergeChainCall env ts).1.sf_gdf.map (fun r => r.name) =
        env.sf_gdf.map (fun r => r.name)) ∧
      ((mergeChainCall env ts).1.sf_gdf.map (fun r => r.geom) =
        env.sf_gdf.map (fun r => r.geom)) ∧
      (mergeChainCall env ts).1.sf_gdf.length = env.sf_gdf.length :=
  fun _ _ _ => ⟨rfl, rfl, rfl, rfl, rfl⟩

end CultivateFood
